import Mathlib

set_option maxRecDepth 8000

/-
Verification of the waveform-acquisition core of the ds1054z oscilloscope
driver, shallowly embedded from the Python source `ds1054z/__init__.py`.

Conventions of the embedding:
* byte buffers are `List Nat` (one `Nat` per byte, the source never relies
  on the 0‥255 bound);
* Python floats are embedded as `ℚ` (the claims are about the exact
  arithmetic formulas, not IEEE rounding);
* code that can raise a Python exception returns `Option`;
* instrument replies are passed in as explicit parameters or oracles,
  since the transport is an external collaborator.
-/

namespace DS1054Z

/-! ## Binary block decoder (`DS1054Z.decode_ieee_block`, source 469–484) -/

/-- Whether byte `c` is an ASCII decimal digit `'0'..'9'` (codes 48–57). -/
def isAsciiDigit (c : Nat) : Bool :=
  decide (48 ≤ c ∧ c ≤ 57)

/-- Python `int(chr(ieee_bytes[1]))` on a single byte: succeeds exactly on ASCII
digits, returning the digit value (a `ValueError`, i.e. `none`, otherwise;
no byte value in 0‥255 other than 48–57 is a Unicode decimal digit). -/
def pyDigit (c : Nat) : Option Nat :=
  if isAsciiDigit c then some (c - 48) else none

/-- ASCII codes Python's `int()` strips as whitespace around a numeral:
tab through carriage return (9–13), the file/group/record/unit
separators (28–31), and the space (32). -/
def isPyIntSpace (c : Nat) : Bool :=
  decide ((9 ≤ c ∧ c ≤ 13) ∨ (28 ≤ c ∧ c ≤ 31) ∨ c = 32)

/-- The digit tail of a Python integer literal: further digits, with a
single underscore allowed only between two digits (Python ≥ 3.6
grouping); `acc` is the value read so far. -/
def pyIntDigitsGo : Nat → List Nat → Option Nat
  | acc, [] => some acc
  | acc, c :: cs =>
    if isAsciiDigit c then pyIntDigitsGo (acc * 10 + (c - 48)) cs
    else if c = 95 then
      match cs with
      | [] => none
      | c2 :: cs2 =>
        if isAsciiDigit c2 then pyIntDigitsGo (acc * 10 + (c2 - 48)) cs2
        else none
    else none

/-- The unsigned core of a Python integer literal: one leading digit,
then the digit tail. -/
def pyIntCore : List Nat → Option Nat
  | [] => none
  | c :: cs => if isAsciiDigit c then pyIntDigitsGo (c - 48) cs else none

/-- Python `int()` on an ASCII-decoded byte string: strips surrounding
whitespace, accepts one optional `+`/`-` sign, then a nonempty digit run
in which single underscores may separate digits; e.g. `int('+5') = 5`
and `int(' 1_0 ') = 10`.  (A byte ≥ 128 makes the source's
`.decode('ascii')` raise before `int` runs; such a byte is not a digit,
sign, underscore or whitespace here, so both paths agree on failure.) -/
def pyInt (l : List Nat) : Option Int :=
  match ((l.dropWhile isPyIntSpace).reverse.dropWhile isPyIntSpace).reverse with
  | [] => none
  | c :: cs =>
    if c = 43 then (pyIntCore cs).map (fun n => (n : Int))
    else if c = 45 then (pyIntCore cs).map (fun n => -(n : Int))
    else (pyIntCore (c :: cs)).map (fun n => (n : Int))

/-- Python's slice `b[start:stop]` for a nonnegative `start` and an
arbitrary (possibly negative) integer `stop`: a negative `stop` counts
from the end of the buffer, and both bounds clamp. -/
def pySlice (b : List Nat) (start : Nat) (stop : Int) : List Nat :=
  (b.take (if stop < 0 then ((b.length : Int) + stop).toNat
           else stop.toNat)).drop start

/-- Source `DS1054Z.decode_ieee_block(ieee_bytes)`:
`n_header_bytes = int(chr(ieee_bytes[1])) + 2`,
`n_data_bytes = int(ieee_bytes[2:n_header_bytes].decode('ascii'))`,
result `ieee_bytes[n_header_bytes : n_header_bytes + n_data_bytes]`.
The header slice `ieee_bytes[2:n_header_bytes]` clamps, which
`drop`/`take` mirror; the final slice may see a negative stop when the
length field parses negative, so it is the full `pySlice`.  An
`IndexError` on `ieee_bytes[1]` or a `ValueError`/`UnicodeDecodeError`
from the length-field parse is `none`.  Note that the source never
inspects byte 0 (the `#` marker). -/
def decode_ieee_block (b : List Nat) : Option (List Nat) :=
  match b.get? 1 with
  | none => none
  | some c =>
    match pyDigit c with
    | none => none
    | some d =>
      match pyInt ((b.drop 2).take d) with
      | none => none
      | some L => some (pySlice b (d + 2) ((d : Int) + 2 + L))

/-! ## Measurement query (`DS1054Z.get_channel_measurement`, source 682–695) -/

/-- The instrument's "no measurement possible" sentinel `9.9e37`
(exactly representable, so float equality in the source is exact). -/
def measurementSentinel : ℚ := 99 * 10 ^ 36

/-- Source `get_channel_measurement` after the reply string has been parsed by
`float()`: the sentinel maps to `None`, any other value is returned
unchanged. -/
def get_channel_measurement_model (ret : ℚ) : Option ℚ :=
  if ret = measurementSentinel then none else some ret

/-! ## Sample reconstruction (`DS1054Z.get_waveform_samples`, source 203–214) -/

/-- A reconstructed sample: `none` stands for the `float('nan')`
sentinel, `some v` for a finite voltage. -/
abbrev Sample := Option ℚ

/-- Python's slice `l[:-num]` for `num : Nat`: empty when `num = 0`
(because `-0 == 0` and `l[:0] == []`), otherwise all but the last `num`
entries (clamped to empty when `num > len(l)`). -/
def pySliceDropLast (l : List α) (num : Nat) : List α :=
  if num = 0 then [] else l.take (l.length - num)

/-- Conversion of one byte code to a voltage sample, as the source's list
comprehension `(val - yorig - yref) * yinc` writes it. -/
def convertByte (yinc yorig yref : ℚ) (val : Nat) : Sample :=
  some (((val : ℚ) - yorig - yref) * yinc)

/-- Source `DS1054Z.get_waveform_samples` after the byte buffer has been fetched
and the preamble read: unpack each byte, apply the linear conversion
`(val - yorig - yref) * yinc`, then — when the instance's pending mask
`self.mask_begin_num` is truthy (any tuple; `None` is falsy) — overwrite
the masked side with NaN: leading `num` entries when `at_begin` is
truthy (nonzero), the trailing slice `samples[:-num]`-style otherwise.
The result pairs the sample list with the pending-mask state after the
call; the source never reassigns `self.mask_begin_num` in this method,
so that state equals the input mask. -/
def get_waveform_samples_model (mask : Option (Nat × Nat))
    (yinc yorig yref : ℚ) (buff : List Nat) :
    List Sample × Option (Nat × Nat) :=
  let samples : List Sample := buff.map (convertByte yinc yorig yref)
  match mask with
  | none => (samples, none)
  | some (at_begin, num) =>
    if at_begin ≠ 0 then
      (List.replicate num none ++ samples.drop num, some (at_begin, num))
    else
      (pySliceDropLast samples num ++ List.replicate num none,
       some (at_begin, num))

/-- The positions a pending mask marks as padding in a buffer of length
`len`: the first `num` when the mask flag is nonzero (leading), the last
`num` otherwise. -/
def maskedPosB (mask : Option (Nat × Nat)) (len i : Nat) : Bool :=
  match mask with
  | none => false
  | some (a, num) =>
    if a ≠ 0 then decide (i < num) else decide (len - num ≤ i)

/-! ## Screen-path fetch (`DS1054Z._get_waveform_bytes_screen`, source 248–294) -/

/-- Nominal screen width in samples (`DS1054Z.SAMPLES_ON_DISPLAY`). -/
def SAMPLES_ON_DISPLAY : Nat := 1200

/-- Source `DS1054Z._get_waveform_bytes_screen` as a function of the data the
instrument supplies: the preamble point count `pnts`, the clamped
start-index read-back `probe` of the left/right-deficit probe (consulted
only when `pnts < 1200`), and the decoded payload of the `:WAVeform:DATA?`
query.  The command writes (`SOURce`, `FORMat`, `MODE`, `STARt`, `STOP`)
do not affect the returned value and are not modelled.  Returns the
(possibly zero-padded) buffer together with the new pending-mask state;
`none` models a failure of the source's `assert len(buff) == pnts`.

`screen_starting_at` is the `starting_at` local of the source: 1, except
when fewer than 1200 points are reported and the read-back of the probe
(write `:WAVeform:STARt 1200` then `:WAVeform:STARt 1`, then query
`:WAVeform:STARt?`) differs from 1, in which case the deficit is on the
left and reading starts at `1200 - pnts + 1`. -/
def screen_starting_at (pnts probe : Nat) : Nat :=
  if pnts < SAMPLES_ON_DISPLAY then
    (if probe ≠ 1 then SAMPLES_ON_DISPLAY - pnts + 1 else 1)
  else 1

def get_waveform_bytes_screen_model (pnts probe : Nat) (payload : List Nat) :
    Option (List Nat × Option (Nat × Nat)) :=
  if payload.length = pnts then
    if pnts < SAMPLES_ON_DISPLAY then
      if screen_starting_at pnts probe = 1 then
        some (payload ++ List.replicate (SAMPLES_ON_DISPLAY - pnts) 0,
              some (0, SAMPLES_ON_DISPLAY - pnts))
      else
        some (List.replicate (SAMPLES_ON_DISPLAY - pnts) 0 ++ payload,
              some (1, SAMPLES_ON_DISPLAY - pnts))
    else
      some (payload, none)
  else none

/-! ### Index lemmas about the reconstructed samples -/

lemma samples_none_fst (yinc yorig yref : ℚ) (buff : List Nat) :
    (get_waveform_samples_model none yinc yorig yref buff).1 =
      buff.map (convertByte yinc yorig yref) := rfl

lemma samples_leading_fst (a num : Nat) (ha : a ≠ 0)
    (yinc yorig yref : ℚ) (buff : List Nat) :
    (get_waveform_samples_model (some (a, num)) yinc yorig yref buff).1 =
      List.replicate num none ++
        (buff.map (convertByte yinc yorig yref)).drop num := by
  cases a with
  | zero => exact absurd rfl ha
  | succ a => rfl

lemma samples_trailing_fst (num : Nat) (hnum : num ≠ 0)
    (yinc yorig yref : ℚ) (buff : List Nat) :
    (get_waveform_samples_model (some (0, num)) yinc yorig yref buff).1 =
      (buff.map (convertByte yinc yorig yref)).take
          ((buff.map (convertByte yinc yorig yref)).length - num) ++
        List.replicate num none := by
  cases num with
  | zero => exact absurd rfl hnum
  | succ num => rfl

lemma samples_length_leading (a num : Nat) (ha : a ≠ 0) (yinc yorig yref : ℚ)
    (buff : List Nat) (hle : num ≤ buff.length) :
    ((get_waveform_samples_model (some (a, num)) yinc yorig yref buff).1).length =
      buff.length := by
  rw [samples_leading_fst a num ha]
  simp only [List.length_append, List.length_replicate, List.length_drop,
    List.length_map]
  omega

lemma samples_length_trailing (num : Nat) (hnum : num ≠ 0) (yinc yorig yref : ℚ)
    (buff : List Nat) (hle : num ≤ buff.length) :
    ((get_waveform_samples_model (some (0, num)) yinc yorig yref buff).1).length =
      buff.length := by
  rw [samples_trailing_fst num hnum]
  simp only [List.length_append, List.length_replicate, List.length_take,
    List.length_map]
  omega

lemma samples_get_masked_leading (a num i : Nat) (ha : a ≠ 0) (hi : i < num)
    (yinc yorig yref : ℚ) (buff : List Nat) :
    ((get_waveform_samples_model (some (a, num)) yinc yorig yref buff).1)[i]? =
      some none := by
  rw [samples_leading_fst a num ha]
  rw [List.getElem?_append_left (by simpa using hi)]
  rw [List.getElem?_replicate, if_pos hi]

lemma samples_get_masked_trailing (num i : Nat) (hnum : num ≠ 0)
    (hle : num ≤ buff.length) (hlo : buff.length - num ≤ i) (hi : i < buff.length)
    (yinc yorig yref : ℚ) :
    ((get_waveform_samples_model (some (0, num)) yinc yorig yref buff).1)[i]? =
      some none := by
  rw [samples_trailing_fst num hnum]
  have hlen : ((buff.map (convertByte yinc yorig yref)).take
      ((buff.map (convertByte yinc yorig yref)).length - num)).length =
      buff.length - num := by
    simp only [List.length_take, List.length_map]
    omega
  rw [List.getElem?_append_right (by omega)]
  rw [hlen, List.getElem?_replicate, if_pos (by omega)]

lemma samples_get_unmasked_leading (a num i : Nat) (ha : a ≠ 0) (hi : num ≤ i)
    (yinc yorig yref : ℚ) (buff : List Nat) :
    ((get_waveform_samples_model (some (a, num)) yinc yorig yref buff).1)[i]? =
      (buff[i]?).map (convertByte yinc yorig yref) := by
  rw [samples_leading_fst a num ha]
  rw [List.getElem?_append_right (by simpa using hi)]
  rw [List.length_replicate, List.getElem?_drop]
  have hidx : num + (i - num) = i := by omega
  rw [hidx, List.getElem?_map]

lemma samples_get_unmasked_trailing (num i : Nat) (hnum : num ≠ 0)
    (hle : num ≤ buff.length) (hi : i < buff.length - num) (yinc yorig yref : ℚ) :
    ((get_waveform_samples_model (some (0, num)) yinc yorig yref buff).1)[i]? =
      (buff[i]?).map (convertByte yinc yorig yref) := by
  rw [samples_trailing_fst num hnum]
  have hilt : i < ((buff.map (convertByte yinc yorig yref)).take
      ((buff.map (convertByte yinc yorig yref)).length - num)).length := by
    simp only [List.length_take, List.length_map]
    omega
  rw [List.getElem?_append_left hilt]
  rw [List.getElem?_take, if_pos (by simp only [List.length_map]; omega),
    List.getElem?_map]

/-! ## Internal-memory chunked fetch
(`DS1054Z._get_waveform_bytes_internal`, source 296–320) -/

/-- Maximum bytes requested per sub-range (`max_byte_len` in the source). -/
def max_byte_len : Nat := 250000

/-- The `while len(buff) < pnts` loop of `_get_waveform_bytes_internal`,
with the instrument's decoded replies supplied by `oracle start stop`
(the decoded payload of the `:WAVeform:DATA?` query issued after
`:WAVeform:STARt start` and `:WAVeform:STOP stop`).  The source's loop
has no iteration bound and no zero-byte check, so it need not terminate;
`fuel` bounds how many iterations are unrolled here.  The first
component is `some buff` once the loop has exited and `none` when the
loop is still running as the fuel runs out; the second component records
the `(start, stop)` windows of the sub-range requests issued, in order. -/
def fetchGo (oracle : Nat → Nat → List Nat) (pnts : Nat) :
    Nat → List Nat → Nat → Option (List Nat) × List (Nat × Nat)
  | 0, buff, _ =>
    if buff.length < pnts then (none, []) else (some buff, [])
  | fuel + 1, buff, pos =>
    if buff.length < pnts then
      let end_pos := min pnts (pos + max_byte_len - 1)
      let r := fetchGo oracle pnts fuel (buff ++ oracle pos end_pos)
        (pos + max_byte_len)
      (r.1, (pos, end_pos) :: r.2)
    else (some buff, [])

/-- Source `_get_waveform_bytes_internal` after source/format/mode setup and the
preamble read: `buff = b''`, `pos = 1`, then the chunk loop. -/
def get_waveform_bytes_internal_model (oracle : Nat → Nat → List Nat)
    (pnts fuel : Nat) : Option (List Nat) × List (Nat × Nat) :=
  fetchGo oracle pnts fuel [] 1

/-- An instrument that answers every sub-range request with exactly the
requested number of bytes (of value 0). -/
def exactOracle (start stop : Nat) : List Nat :=
  List.replicate (stop + 1 - start) 0

/-- A stalled instrument: every sub-range request decodes to zero bytes. -/
def emptyOracle : Nat → Nat → List Nat := fun _ _ => []

/-- The start/stop windows the loop issues when every reply is complete:
from `pos` on, windows of `max_byte_len` points clamped to `pnts`. -/
def expectedReqs (pnts : Nat) : Nat → Nat → List (Nat × Nat)
  | 0, _ => []
  | fuel + 1, pos =>
    if pos ≤ pnts then
      (pos, min pnts (pos + max_byte_len - 1)) ::
        expectedReqs pnts fuel (pos + max_byte_len)
    else []

lemma fetchGo_step (oracle : Nat → Nat → List Nat) (pnts fuel pos : Nat)
    (buff : List Nat) (hlt : buff.length < pnts) :
    fetchGo oracle pnts (fuel + 1) buff pos =
      ((fetchGo oracle pnts fuel
          (buff ++ oracle pos (min pnts (pos + max_byte_len - 1)))
          (pos + max_byte_len)).1,
       (pos, min pnts (pos + max_byte_len - 1)) ::
         (fetchGo oracle pnts fuel
           (buff ++ oracle pos (min pnts (pos + max_byte_len - 1)))
           (pos + max_byte_len)).2) := by
  simp only [fetchGo, if_pos hlt]

lemma fetchGo_done (oracle : Nat → Nat → List Nat) (pnts fuel pos : Nat)
    (buff : List Nat) (hge : ¬ buff.length < pnts) :
    fetchGo oracle pnts fuel buff pos = (some buff, []) := by
  cases fuel <;> simp only [fetchGo, if_neg hge]

lemma fetchGo_exact (pnts : Nat) : ∀ (fuel pos : Nat) (buff : List Nat),
    1 ≤ pos → buff.length = min pnts (pos - 1) →
    pnts < pos + fuel * max_byte_len →
    (fetchGo exactOracle pnts fuel buff pos).2 = expectedReqs pnts fuel pos ∧
    ∃ b, (fetchGo exactOracle pnts fuel buff pos).1 = some b ∧
      b.length = pnts := by
  have hCpos : (1 : Nat) ≤ max_byte_len := by norm_num [max_byte_len]
  have hC : max_byte_len = 250000 := rfl
  intro fuel
  induction fuel with
  | zero =>
    intro pos buff hpos hbuff hfuel
    rw [hC] at hfuel
    have hnot : ¬ buff.length < pnts := by omega
    rw [fetchGo_done exactOracle pnts 0 pos buff hnot]
    exact ⟨rfl, buff, rfl, by omega⟩
  | succ fuel ih =>
    intro pos buff hpos hbuff hfuel
    rw [hC] at hfuel
    by_cases hle : pos ≤ pnts
    · have hlt : buff.length < pnts := by omega
      have hchunk : (exactOracle pos (min pnts (pos + max_byte_len - 1))).length =
          min pnts (pos + max_byte_len - 1) + 1 - pos := by
        simp [exactOracle]
      have hnew : (buff ++ exactOracle pos (min pnts (pos + max_byte_len - 1))).length =
          min pnts (pos + max_byte_len - 1) := by
        rw [List.length_append, hchunk, hbuff]
        omega
      have hIH := ih (pos + max_byte_len)
        (buff ++ exactOracle pos (min pnts (pos + max_byte_len - 1)))
        (by omega) hnew (by rw [hC]; omega)
      rw [fetchGo_step exactOracle pnts fuel pos buff hlt]
      refine ⟨?_, hIH.2⟩
      rw [expectedReqs, if_pos hle]
      exact congrArg _ hIH.1
    · have hnot : ¬ buff.length < pnts := by omega
      rw [fetchGo_done exactOracle pnts (fuel + 1) pos buff hnot,
        expectedReqs, if_neg hle]
      exact ⟨rfl, buff, rfl, by omega⟩

lemma expectedReqs_get (pnts : Nat) : ∀ (fuel pos k : Nat) (p : Nat × Nat),
    (expectedReqs pnts fuel pos)[k]? = some p →
    p = (pos + k * max_byte_len,
         min pnts (pos + k * max_byte_len + max_byte_len - 1)) := by
  intro fuel
  induction fuel with
  | zero =>
    intro pos k p hp
    simp [expectedReqs] at hp
  | succ fuel ih =>
    intro pos k p hp
    by_cases hle : pos ≤ pnts
    · rw [expectedReqs, if_pos hle] at hp
      cases k with
      | zero =>
        rw [List.getElem?_cons_zero] at hp
        injection hp with hp
        simp [← hp]
      | succ k =>
        rw [List.getElem?_cons_succ] at hp
        have h := ih (pos + max_byte_len) k p hp
        have ha : pos + max_byte_len + k * max_byte_len =
            pos + (k + 1) * max_byte_len := by ring
        rw [h, ha]
    · rw [expectedReqs, if_neg hle] at hp
      simp at hp

lemma fetchGo_empty (pnts : Nat) (hp : 0 < pnts) : ∀ (fuel pos : Nat),
    (fetchGo emptyOracle pnts fuel [] pos).1 = none ∧
    ((fetchGo emptyOracle pnts fuel [] pos).2).length = fuel := by
  have hlt : ([] : List Nat).length < pnts := by simpa using hp
  intro fuel
  induction fuel with
  | zero =>
    intro pos
    constructor <;> simp [fetchGo, hp]
  | succ fuel ih =>
    intro pos
    rw [fetchGo_step emptyOracle pnts fuel pos [] hlt]
    have h := ih (pos + max_byte_len)
    exact ⟨by simpa [emptyOracle] using h.1, by simpa [emptyOracle] using h.2⟩

/-! ## Screen-vs-memory dispatch (`DS1054Z.get_waveform_bytes`,
source 216–246, and the head of `_get_waveform_bytes_internal`,
source 301–304) -/

/-- ASCII `str.upper()` on one character (mode strings are ASCII). -/
def pyUpperChar (c : Char) : Char :=
  if 'a' ≤ c ∧ c ≤ 'z' then Char.ofNat (c.toNat - 32) else c

/-- Python `mode.upper()`. -/
def pyUpper (s : List Char) : List Char := s.map pyUpperChar

/-- Python `s.startswith(p)` for `pyStartswith s p`. -/
def pyStartswith : List Char → List Char → Bool
  | _, [] => true
  | [], _ :: _ => false
  | x :: xs, c :: cs => x == c && pyStartswith xs cs

/-- Which fetch path `get_waveform_bytes` takes. -/
inductive FetchPath
  | screen
  | internal
deriving DecidableEq

/-- The dispatch of `get_waveform_bytes`: the screen path when the mode
starts (case-insensitively) with `NORM`, or when the scope is running
and the mode starts with `MAX`; otherwise the internal path, which
first issues `:STOP` iff the scope reports running.  The boolean result
component records whether `:STOP` was issued.  The source queries
`self.running` up to twice (in the dispatch and again inside
`_get_waveform_bytes_internal`); the instrument is modelled as
quiescent, both queries answering `running`.  `none` models an
`AssertionError` from the per-path mode asserts (unreachable for the
three documented mode strings). -/
def get_waveform_bytes_model (mode : List Char) (running : Bool) :
    Option (FetchPath × Bool) :=
  if pyStartswith (pyUpper mode) ['N', 'O', 'R', 'M'] ||
      (running && pyStartswith (pyUpper mode) ['M', 'A', 'X']) then
    if pyStartswith (pyUpper mode) ['N', 'O', 'R'] ||
        pyStartswith (pyUpper mode) ['M', 'A', 'X'] then
      some (FetchPath.screen, false)
    else none
  else
    if pyStartswith (pyUpper mode) ['M', 'A', 'X'] ||
        pyStartswith (pyUpper mode) ['R', 'A', 'W'] then
      some (FetchPath.internal, running)
    else none

/-! ## AUTO memory-depth resolution
(`DS1054Z.memory_depth_internal_total`, source 545–568) -/

/-- An instrument action issued during the AUTO-depth sequence. -/
inductive ScopeAct
  | stopAcq
  | runAcq
  | setMode (m : List Char)
  | readPreamble
deriving DecidableEq

/-- The instrument state the AUTO-depth sequence mutates: run state and
waveform read-mode (the `:WAVeform:MODE?` reply). -/
structure ScopeState where
  running : Bool
  mode : List Char
deriving DecidableEq

/-- The reply of `:WAVeform:MODE?` in screen mode starts with `NORM`. -/
def normModeReply : List Char := ['N', 'O', 'R', 'M']

/-- The AUTO branch of `memory_depth_internal_total` (taken when
`:ACQuire:MDEPth?` answers `AUTO`): snapshot `curr_running` and
`curr_mode`, `:STOP` if running, temporarily force RAW mode when the
snapshotted mode starts with `NORM`, read `pnts` from a freshly fetched
preamble, restore the mode, and `:RUN` iff the snapshot was running.
Returns the ordered action list and the resulting depth — `pnts`, since
the source's final `int(float(mdep))` is the identity on the preamble's
point count (an integer of at most 12,000,000, far below 2^53). -/
def memory_depth_auto (s : ScopeState) (pnts : Nat) : List ScopeAct × Nat :=
  ((if s.running then [ScopeAct.stopAcq] else []) ++
   (if pyStartswith s.mode normModeReply then
      [ScopeAct.setMode ['R', 'A', 'W'], ScopeAct.readPreamble,
       ScopeAct.setMode s.mode]
    else
      [ScopeAct.readPreamble]) ++
   (if s.running then [ScopeAct.runAcq] else []),
   pnts)

/-- Effect of one action on the instrument state (`:STOP`/`:RUN` set the
run state, `:WAVeform:MODE m` sets the mode, the preamble query is
read-only). -/
def applyAct (s : ScopeState) : ScopeAct → ScopeState
  | ScopeAct.stopAcq => { s with running := false }
  | ScopeAct.runAcq => { s with running := true }
  | ScopeAct.setMode m => { s with mode := m }
  | ScopeAct.readPreamble => s

/-- Execute a list of actions from a starting state. -/
def execActs (s : ScopeState) (l : List ScopeAct) : ScopeState :=
  l.foldl applyAct s

/-! ## Quantized value lists and snapping
(`DS1054Z._populate_possible_values`, source 322–346; the
`timebase_scale` setter, 385–388; `set_probe_ratio`, 603–617;
`set_channel_scale`, 660–680) -/

/-- Source constant `SCALE_MANTISSAE = (1, 2, 5)`. -/
def SCALE_MANTISSAE : List ℚ := [1, 2, 5]

/-- The loop of `_populate_possible_values`: append `value` while
`value <= max_val`, then advance the mantissa index cyclically, bumping
the decade exponent on wraparound, and rebuild the next value from the
decimal string `'{m}e{e}'` — exact decimal arithmetic, embedded as the
exact rational `m * 10^e`.  `fuel` bounds the iteration count; any fuel
at least the number of steps from the start value past `max_val`
computes the full list. -/
def populateGo (maxVal : ℚ) : Nat → Nat → Int → ℚ → List ℚ
  | 0, _, _, _ => []
  | fuel + 1, mIdx, e, v =>
    if v ≤ maxVal then
      v :: (let mIdx2 := (mIdx + 1) % 3
            let e2 := if mIdx2 = 0 then e + 1 else e
            populateGo maxVal fuel mIdx2 e2
              ((SCALE_MANTISSAE.getD mIdx2 0) * (10 : ℚ) ^ e2))
    else []

/-- List `possible_probe_ratio_values`: MIN 0.01 formats as `1e-02`, so the
loop starts at mantissa index 0 and exponent −2; MAX is 1000. -/
def possible_probe_ratio_values : List ℚ :=
  populateGo 1000 100 0 (-2) (1 / 100)

/-- List `possible_timebase_scale_values`: MIN 5e-9 formats as `5e-09`
(mantissa index 2, exponent −9); MAX is 50. -/
def possible_timebase_scale_values : List ℚ :=
  populateGo 50 100 2 (-9) (5 / 10 ^ 9)

/-- List `possible_channel_scale_values`: MIN 1e-3 (mantissa index 0,
exponent −3); MAX is 10. -/
def possible_channel_scale_values : List ℚ :=
  populateGo 10 100 0 (-3) (1 / 1000)

/-- Python's `min(candidates, key=lambda x: abs(x - t))`, running
minimum `best`: the minimum is replaced only on a strictly smaller key,
so the first occurrence of the minimal key wins. -/
def pyMinKeyAbsGo (t best : ℚ) : List ℚ → ℚ
  | [] => best
  | x :: xs =>
    if |x - t| < |best - t| then pyMinKeyAbsGo t x xs
    else pyMinKeyAbsGo t best xs

/-- Python `min(candidates, key=...)`; Python raises on an empty sequence. -/
def pyMinKeyAbs (t : ℚ) : List ℚ → Option ℚ
  | [] => none
  | x :: xs => some (pyMinKeyAbsGo t x xs)

/-- The `timebase_scale` setter: snap to the possible values, then
write the snapped value. -/
def timebase_scale_setter (new_timebase : ℚ) : Option ℚ :=
  pyMinKeyAbs new_timebase possible_timebase_scale_values

/-- Source `set_probe_ratio`: snap to the possible values, then write. -/
def set_probe_ratio_model (ratio : ℚ) : Option ℚ :=
  pyMinKeyAbs ratio possible_probe_ratio_values

/-- Source `set_channel_scale`: snaps against the probe-ratio-scaled candidate
list only when `use_closest_match` is true (its default is `False`);
otherwise the requested value is written unchanged. -/
def set_channel_scale_model (use_closest_match : Bool)
    (probe_ratio volts : ℚ) : Option ℚ :=
  if use_closest_match then
    pyMinKeyAbs volts
      (possible_channel_scale_values.map (fun val => val * probe_ratio))
  else some volts

/-- Predicate: `r` is the element of `l` minimising `|· - t|`, the first occurrence
winning ties: `r` occurs at an index strictly before every other index
whose element comes at least as close to `t`. -/
def isFirstArgmin (t : ℚ) (l : List ℚ) (r : ℚ) : Prop :=
  ∃ i : Nat, l[i]? = some r ∧
    (∀ y ∈ l, |r - t| ≤ |y - t|) ∧
    (∀ (j : Nat) (y : ℚ), j < i → l[j]? = some y → |r - t| < |y - t|)

lemma pyMinKeyAbsGo_isFirstArgmin (t : ℚ) :
    ∀ (l : List ℚ) (best : ℚ),
      isFirstArgmin t (best :: l) (pyMinKeyAbsGo t best l) := by
  intro l
  induction l with
  | nil =>
    intro best
    refine ⟨0, rfl, ?_, ?_⟩
    · intro y hy
      rw [List.mem_singleton] at hy
      rw [hy]
      show |best - t| ≤ |best - t|
      exact le_rfl
    · intro j y hj
      exact absurd hj (Nat.not_lt_zero j)
  | cons x xs ih =>
    intro best
    by_cases h : |x - t| < |best - t|
    · have hr : pyMinKeyAbsGo t best (x :: xs) = pyMinKeyAbsGo t x xs := by
        simp only [pyMinKeyAbsGo, if_pos h]
      rw [hr]
      obtain ⟨i, hget, hmin, hfirst⟩ := ih x
      have hlt : |pyMinKeyAbsGo t x xs - t| < |best - t| :=
        lt_of_le_of_lt (hmin x (List.mem_cons_self x xs)) h
      refine ⟨i + 1, by simpa using hget, ?_, ?_⟩
      · intro y hy
        rcases List.mem_cons.mp hy with rfl | hy'
        · exact le_of_lt hlt
        · exact hmin y hy'
      · intro j y hj hy
        cases j with
        | zero =>
          rw [List.getElem?_cons_zero] at hy
          injection hy with hy
          rw [← hy]
          exact hlt
        | succ k =>
          rw [List.getElem?_cons_succ] at hy
          exact hfirst k y (by omega) hy
    · have hr : pyMinKeyAbsGo t best (x :: xs) = pyMinKeyAbsGo t best xs := by
        simp only [pyMinKeyAbsGo, if_neg h]
      rw [hr]
      push_neg at h
      obtain ⟨i, hget, hmin, hfirst⟩ := ih best
      have hbest : |pyMinKeyAbsGo t best xs - t| ≤ |best - t| :=
        hmin best (List.mem_cons_self best xs)
      cases i with
      | zero =>
        rw [List.getElem?_cons_zero] at hget
        refine ⟨0, hget, ?_, ?_⟩
        · intro y hy
          rcases List.mem_cons.mp hy with rfl | hy'
          · exact hbest
          · rcases List.mem_cons.mp hy' with rfl | hy''
            · exact le_trans hbest h
            · exact hmin y (List.mem_cons_of_mem best hy'')
        · intro j y hj
          exact absurd hj (Nat.not_lt_zero j)
      | succ k =>
        have hfb : |pyMinKeyAbsGo t best xs - t| < |best - t| :=
          hfirst 0 best (by omega) (by simp)
        refine ⟨k + 2, ?_, ?_, ?_⟩
        · rw [List.getElem?_cons_succ, List.getElem?_cons_succ]
          rw [List.getElem?_cons_succ] at hget
          exact hget
        · intro y hy
          rcases List.mem_cons.mp hy with rfl | hy'
          · exact hbest
          · rcases List.mem_cons.mp hy' with rfl | hy''
            · exact le_trans hbest h
            · exact hmin y (List.mem_cons_of_mem best hy'')
        · intro j y hj hy
          cases j with
          | zero =>
            rw [List.getElem?_cons_zero] at hy
            injection hy with hy
            rw [← hy]
            exact hfb
          | succ j' =>
            rw [List.getElem?_cons_succ] at hy
            cases j' with
            | zero =>
              rw [List.getElem?_cons_zero] at hy
              injection hy with hy
              rw [← hy]
              exact lt_of_lt_of_le hfb h
            | succ j'' =>
              rw [List.getElem?_cons_succ] at hy
              exact hfirst (j'' + 1) y (by omega)
                (by rw [List.getElem?_cons_succ]; exact hy)

/-- On any nonempty candidate list, the Python `min(..., key=abs(.-t))`
returns the first argmin. -/
lemma pyMinKeyAbs_isFirstArgmin (t x : ℚ) (xs : List ℚ) :
    ∃ r, pyMinKeyAbs t (x :: xs) = some r ∧ isFirstArgmin t (x :: xs) r :=
  ⟨pyMinKeyAbsGo t x xs, rfl, pyMinKeyAbsGo_isFirstArgmin t xs x⟩

/-- The generated probe-ratio candidates (matching the docstring of
`set_probe_ratio`: 0.01, 0.02, 0.05, …, 1000). -/
lemma possible_probe_ratio_values_eq :
    possible_probe_ratio_values =
      [1/100, 1/50, 1/20, 1/10, 1/5, 1/2, 1, 2, 5, 10, 20, 50, 100,
       200, 500, 1000] := by
  norm_num [possible_probe_ratio_values, populateGo, SCALE_MANTISSAE]

/-- The generated timebase candidates: 5 ns to 50 s in 1-2-5 steps. -/
lemma possible_timebase_scale_values_eq :
    possible_timebase_scale_values =
      [1/200000000, 1/100000000, 1/50000000, 1/20000000, 1/10000000,
       1/5000000, 1/2000000, 1/1000000, 1/500000, 1/200000, 1/100000,
       1/50000, 1/20000, 1/10000, 1/5000, 1/2000, 1/1000, 1/500, 1/200,
       1/100, 1/50, 1/20, 1/10, 1/5, 1/2, 1, 2, 5, 10, 20, 50] := by
  norm_num [possible_timebase_scale_values, populateGo, SCALE_MANTISSAE]

/-- The generated channel-scale candidates: 1 mV to 10 V in 1-2-5
steps. -/
lemma possible_channel_scale_values_eq :
    possible_channel_scale_values =
      [1/1000, 1/500, 1/200, 1/100, 1/50, 1/20, 1/10, 1/5, 1/2, 1, 2,
       5, 10] := by
  norm_num [possible_channel_scale_values, populateGo, SCALE_MANTISSAE]

/-! ## Theorems for claims C2 and C10 -/

/-- C2 counterexample: the claim states that the decoder fails with
`MalformedBlock` whenever the `#` marker is absent or fewer than the
declared `L` payload bytes are present.  The buffer `[65, 49, 48]`
(ASCII `"A10"`) has no `#` marker (byte 0 is 65, not 35) yet decodes
successfully, and the buffer `[35, 49, 53, 65]` (ASCII `"#15A"`) declares
`L = 5` but holds a single payload byte, yet decodes successfully to that
short payload instead of failing. -/
theorem decode_ieee_block_claim_counterexample :
    ([65, 49, 48] : List Nat).get? 0 = some 65 ∧ (65 : Nat) ≠ 35 ∧
    decode_ieee_block [65, 49, 48] = some [] ∧
    decode_ieee_block [35, 49, 53, 65] = some [65] ∧
    ([65] : List Nat).length < 5 := by
  refine ⟨rfl, by decide, ?_, ?_, by decide⟩ <;> decide

/-- The digit value of a valid header byte. -/
lemma pyDigit_of_le (d : Nat) (hd : d ≤ 9) : pyDigit (48 + d) = some d := by
  have h : isAsciiDigit (48 + d) = true := by
    simp only [isAsciiDigit, decide_eq_true_eq]
    omega
  simp [pyDigit, h]

/-- A non-digit byte 1 makes the decoder fail. -/
lemma decode_ieee_block_nondigit (m c : Nat) (rest : List Nat)
    (hc : pyDigit c = none) :
    decode_ieee_block (m :: c :: rest) = none := by
  cases rest with
  | nil => simp [decode_ieee_block, hc]
  | cons a t => simp [decode_ieee_block, hc]

/-- The decoder on a buffer with a valid digit-count byte, reduced to
the length-field parse. -/
lemma decode_ieee_block_eq (m d : Nat) (rest : List Nat) (hd : d ≤ 9) :
    decode_ieee_block (m :: (48 + d) :: rest) =
      (match pyInt (rest.take d) with
       | none => none
       | some L =>
         some (pySlice (m :: (48 + d) :: rest) (d + 2) ((d : Int) + 2 + L))) := by
  have h1 : (m :: (48 + d) :: rest : List Nat).get? 1 = some (48 + d) := rfl
  have h2 : (m :: (48 + d) :: rest : List Nat).drop 2 = rest := rfl
  simp only [decode_ieee_block, h1, pyDigit_of_le d hd, h2]

/-- The first two cons cells do not affect a slice starting at index 1
or later (their values are dropped; only the length enters, and it is
the same). -/
lemma take_drop_cons_irrel (x y : Nat) (rest : List Nat) (k start : Nat) :
    ((x :: rest).take k).drop (start + 1) =
      ((y :: rest).take k).drop (start + 1) := by
  cases k with
  | zero => rfl
  | succ n =>
    rw [List.take_succ_cons, List.take_succ_cons, List.drop_succ_cons,
      List.drop_succ_cons]

/-- Byte 0 is irrelevant to `pySlice` for a start index of at least 1. -/
lemma pySlice_cons_head_irrel (x y : Nat) (rest : List Nat) (start : Nat)
    (stop : Int) :
    pySlice (x :: rest) (start + 1) stop =
      pySlice (y :: rest) (start + 1) stop := by
  unfold pySlice
  simp only [List.length_cons]
  exact take_drop_cons_irrel x y rest _ start

/-- The payload slice of a well-formed header with nonnegative declared
length `L` is the first `L` payload bytes (clamped). -/
lemma pySlice_payload (m c : Nat) (field payload : List Nat) (d : Nat)
    (hlen : field.length = d) (L : Int) (hL : 0 ≤ L) :
    pySlice (m :: c :: (field ++ payload)) (d + 2) ((d : Int) + 2 + L) =
      payload.take L.toNat := by
  have hstop : ¬ ((d : Int) + 2 + L < 0) := by omega
  unfold pySlice
  rw [if_neg hstop]
  have htn : ((d : Int) + 2 + L).toNat = d + 2 + L.toNat := by omega
  rw [htn, List.drop_take]
  have h1 : d + 2 + L.toNat - (d + 2) = L.toNat := by omega
  rw [h1]
  have h2 : (m :: c :: (field ++ payload) : List Nat).drop (d + 2) = payload := by
    have h3 : d + 2 = ([m, c] : List Nat).length + d := by simp [Nat.add_comm]
    show (([m, c] : List Nat) ++ (field ++ payload)).drop (d + 2) = payload
    rw [h3, List.drop_append, ← hlen, List.drop_left]
  rw [h2]

/-- C2 (amended): the decoder never inspects byte 0, so the `#` marker
is not checked; whenever byte 1 is the ASCII digit `d` and the `d`
bytes after it parse under Python `int()` (surrounding whitespace, an
optional sign, and underscore grouping included) to a value `L ≥ 0`, it
returns the first `L` payload bytes — the whole short payload, without
error, when fewer than `L` bytes are present, and a negative `L` gives
a negative-stop slice, still without error; given a digit at byte 1 it
fails (a plain Python exception, no dedicated `MalformedBlock` type)
exactly when the length field does not parse under `int()`, and it
always fails on a buffer of fewer than 2 bytes or a non-digit byte 1. -/
theorem decode_ieee_block_characterization :
    (∀ (x y : Nat) (rest : List Nat),
       decode_ieee_block (x :: rest) = decode_ieee_block (y :: rest)) ∧
    (∀ (m d : Nat) (field payload : List Nat) (L : Int),
       d ≤ 9 → field.length = d → pyInt field = some L → 0 ≤ L →
       decode_ieee_block (m :: (48 + d) :: (field ++ payload)) =
         some (payload.take L.toNat)) ∧
    (∀ (m d : Nat) (field payload : List Nat) (L : Int),
       d ≤ 9 → field.length = d → pyInt field = some L →
       (payload.length : Int) ≤ L →
       decode_ieee_block (m :: (48 + d) :: (field ++ payload)) =
         some payload) ∧
    (∀ b : List Nat, b.length ≤ 1 → decode_ieee_block b = none) ∧
    (∀ (m c : Nat) (rest : List Nat), pyDigit c = none →
       decode_ieee_block (m :: c :: rest) = none) ∧
    (∀ (m d : Nat) (field payload : List Nat), d ≤ 9 → field.length = d →
       (decode_ieee_block (m :: (48 + d) :: (field ++ payload)) = none ↔
         pyInt field = none)) := by
  have hwf : ∀ (m d : Nat) (field payload : List Nat) (L : Int),
      d ≤ 9 → field.length = d → pyInt field = some L → 0 ≤ L →
      decode_ieee_block (m :: (48 + d) :: (field ++ payload)) =
        some (payload.take L.toNat) := by
    intro m d field payload L hd hlen hL hL0
    rw [decode_ieee_block_eq m d (field ++ payload) hd]
    have hf : (field ++ payload).take d = field := by
      simpa [← hlen] using (List.take_left field payload)
    rw [hf, hL]
    exact congrArg some (pySlice_payload m (48 + d) field payload d hlen L hL0)
  refine ⟨?_, hwf, ?_, ?_, decode_ieee_block_nondigit, ?_⟩
  · intro x y rest
    cases rest with
    | nil => rfl
    | cons c t =>
      by_cases hc : isAsciiDigit c = true
      · obtain ⟨d, hd9, rfl⟩ : ∃ d, d ≤ 9 ∧ c = 48 + d := by
          simp only [isAsciiDigit, decide_eq_true_eq] at hc
          exact ⟨c - 48, by omega, by omega⟩
        rw [decode_ieee_block_eq x d t hd9, decode_ieee_block_eq y d t hd9]
        cases pyInt (t.take d) with
        | none => rfl
        | some L =>
          exact congrArg some
            (pySlice_cons_head_irrel x y ((48 + d) :: t) (d + 1)
              ((d : Int) + 2 + L))
      · have hnd : pyDigit c = none := by
          simp [pyDigit, hc]
        rw [decode_ieee_block_nondigit x c t hnd,
          decode_ieee_block_nondigit y c t hnd]
  · intro m d field payload L hd hlen hL hshort
    have hL0 : 0 ≤ L := le_trans (by positivity) hshort
    rw [hwf m d field payload L hd hlen hL hL0,
        List.take_of_length_le (by omega)]
  · intro b hb
    match b, hb with
    | [], _ => rfl
    | [x], _ => rfl
  · intro m d field payload hd hlen
    rw [decode_ieee_block_eq m d (field ++ payload) hd]
    have hf : (field ++ payload).take d = field := by
      simpa [← hlen] using (List.take_left field payload)
    rw [hf]
    cases pyInt field with
    | none => simp
    | some L => simp

/-- Witness for the amended C2 at concrete blocks: `"#15"` followed by
payload `[1,2,3]` (shorter than the declared 5 bytes) decodes to the
short payload, and `"#2+5AAAAA"` — a signed length field, accepted by
Python's `int()` — decodes to the 5 `'A'` bytes. -/
theorem decode_ieee_block_characterization_witness :
    decode_ieee_block [35, 49, 53, 1, 2, 3] = some [1, 2, 3] ∧
    decode_ieee_block [35, 50, 43, 53, 65, 65, 65, 65, 65] =
      some [65, 65, 65, 65, 65] := by
  constructor
  · have h := decode_ieee_block_characterization.2.2.1 35 1 [53] [1, 2, 3] 5
      (by decide) (by decide) (by decide) (by decide)
    simpa using h
  · have h := decode_ieee_block_characterization.2.1 35 2 [43, 53]
      [65, 65, 65, 65, 65] 5 (by decide) (by decide) (by decide) (by decide)
    simpa using h

/-- C10: `get_channel_measurement` returns `None` exactly when the parsed
reply equals the sentinel `9.9e37`; every other parsed reply is returned
unchanged. -/
theorem get_channel_measurement_sentinel (r : ℚ) :
    (get_channel_measurement_model r = none ↔ r = measurementSentinel) ∧
    (r ≠ measurementSentinel → get_channel_measurement_model r = some r) := by
  constructor
  · unfold get_channel_measurement_model
    split <;> simp_all
  · intro h
    simp [get_channel_measurement_model, h]

/-- Witness for C10 at concrete replies: the sentinel maps to `none`, the
value `5` is passed through. -/
theorem get_channel_measurement_sentinel_witness :
    get_channel_measurement_model measurementSentinel = none ∧
    get_channel_measurement_model 5 = some 5 := by
  constructor
  · exact (get_channel_measurement_sentinel measurementSentinel).1.mpr rfl
  · exact (get_channel_measurement_sentinel 5).2 (by norm_num [measurementSentinel])

/-- C6 (amended): sample reconstruction applies the linear conversion
`(code - yorig - yref) * yinc` positionwise and overwrites the masked
side with NaN, and the output length equals the byte-buffer length —
provided the pending mask is absent or its count `num` satisfies
`1 ≤ num ≤ buff.length` (true of every mask as recorded by the screen
fetch and consumed against that fetch's own 1200-byte buffer).  For
other mask states (reachable only through a stale mask) the source's
slicing changes the length, see the counterexample. -/
theorem get_waveform_samples_reconstruction
    (mask : Option (Nat × Nat)) (yinc yorig yref : ℚ) (buff : List Nat)
    (hmask : mask = none ∨
      ∃ a num, mask = some (a, num) ∧ 1 ≤ num ∧ num ≤ buff.length) :
    ((get_waveform_samples_model mask yinc yorig yref buff).1).length =
      buff.length ∧
    (∀ (i v : Nat), buff[i]? = some v → maskedPosB mask buff.length i = false →
      ((get_waveform_samples_model mask yinc yorig yref buff).1)[i]? =
        some (some (((v : ℚ) - yorig - yref) * yinc))) ∧
    (∀ i, i < buff.length → maskedPosB mask buff.length i = true →
      ((get_waveform_samples_model mask yinc yorig yref buff).1)[i]? =
        some none) := by
  rcases hmask with rfl | ⟨a, num, rfl, h1, h2⟩
  · refine ⟨by simp [samples_none_fst], ?_, ?_⟩
    · intro i v hv _
      rw [samples_none_fst, List.getElem?_map, hv]
      rfl
    · intro i _ hm
      simp [maskedPosB] at hm
  · have hnum : num ≠ 0 := by omega
    rcases Nat.eq_zero_or_pos a with rfl | ha
    · -- trailing mask
      have hmp : ∀ i, maskedPosB (some (0, num)) buff.length i =
          decide (buff.length - num ≤ i) := by
        intro i
        simp [maskedPosB]
      refine ⟨samples_length_trailing num hnum yinc yorig yref buff h2, ?_, ?_⟩
      · intro i v hv hm
        rw [hmp] at hm
        have hilt : i < buff.length - num := by
          have := of_decide_eq_false hm
          omega
        rw [samples_get_unmasked_trailing num i hnum h2 hilt, hv]
        rfl
      · intro i hi hm
        rw [hmp] at hm
        exact samples_get_masked_trailing num i hnum h2
          (of_decide_eq_true hm) hi yinc yorig yref
    · have ha' : a ≠ 0 := by omega
      have hmp : ∀ i, maskedPosB (some (a, num)) buff.length i =
          decide (i < num) := by
        intro i
        simp [maskedPosB, ha']
      refine ⟨samples_length_leading a num ha' yinc yorig yref buff h2, ?_, ?_⟩
      · intro i v hv hm
        rw [hmp] at hm
        have hge : num ≤ i := by
          have := of_decide_eq_false hm
          omega
        rw [samples_get_unmasked_leading a num i ha' hge, hv]
        rfl
      · intro i _ hm
        rw [hmp] at hm
        exact samples_get_masked_leading a num i ha'
          (of_decide_eq_true hm) yinc yorig yref buff

/-- Witness for the amended C6 at the spec's concrete example:
bytes `[127, 128]`, `yinc = 0.04 = 1/25`, `yorig = -75`, `yref = 127`,
no pending mask: two samples come back and sample 0 equals
`(127 + 75 - 127) * 0.04 = 3`. -/
theorem get_waveform_samples_reconstruction_witness :
    ((get_waveform_samples_model none (1/25) (-75) 127 [127, 128]).1).length
        = 2 ∧
    ((get_waveform_samples_model none (1/25) (-75) 127 [127, 128]).1)[0]? =
        some (some 3) := by
  have h := get_waveform_samples_reconstruction none (1/25) (-75) 127
    [127, 128] (Or.inl rfl)
  refine ⟨h.1, ?_⟩
  have h0 := h.2.1 0 127 rfl rfl
  rw [h0]
  norm_num

/-- C6 counterexample: with the stale pending mask `(1, 200)` (as left
over from a partial-screen fetch with `pnts = 1000`) and a later
100-byte buffer, the reconstruction returns 200 entries, not 100: the
claim's "returns a list whose length equals the byte-buffer length" for
*every* pending mask state is false on the code. -/
theorem get_waveform_samples_length_counterexample :
    ((get_waveform_samples_model (some (1, 200)) 1 0 0
        (List.replicate 100 5)).1).length = 200 ∧
    (List.replicate 100 5 : List Nat).length = 100 := by
  constructor
  · rw [samples_leading_fst 1 200 (by decide)]
    simp only [List.length_append, List.length_replicate, List.length_drop,
      List.length_map]
  · exact List.length_replicate 100 5

/-- C4: a screen-path fetch with `pnts ≤ 1200` (and the instrument
returning exactly `pnts` decoded bytes, per the source's assert) yields
a 1200-byte buffer; when `pnts < 1200` the missing `1200 - pnts` bytes
are zeros, leading when the probe read-back differs from 1 and trailing
otherwise, with the matching mask `(1, 1200 - pnts)` resp.
`(0, 1200 - pnts)` recorded, so that the padded positions reconstruct to
NaN; when `pnts = 1200` the mask slot is cleared. -/
theorem screen_fetch_pads_and_masks (pnts probe : Nat) (payload : List Nat)
    (h1200 : pnts ≤ 1200) (hlen : payload.length = pnts) :
    ∃ buff mask,
      get_waveform_bytes_screen_model pnts probe payload = some (buff, mask) ∧
      buff.length = 1200 ∧
      (pnts = 1200 → buff = payload ∧ mask = none) ∧
      (pnts < 1200 → probe ≠ 1 →
        buff = List.replicate (1200 - pnts) 0 ++ payload ∧
        mask = some (1, 1200 - pnts)) ∧
      (pnts < 1200 → probe = 1 →
        buff = payload ++ List.replicate (1200 - pnts) 0 ∧
        mask = some (0, 1200 - pnts)) ∧
      (∀ yinc yorig yref i, maskedPosB mask 1200 i = true → i < 1200 →
        ((get_waveform_samples_model mask yinc yorig yref buff).1)[i]? =
          some none) := by
  by_cases hlt : pnts < SAMPLES_ON_DISPLAY
  · have hpos : 1 ≤ 1200 - pnts := by
      simp only [SAMPLES_ON_DISPLAY] at hlt
      omega
    have hS : SAMPLES_ON_DISPLAY - pnts = 1200 - pnts := rfl
    by_cases hp : probe ≠ 1
    · -- left deficit: leading zeros, mask (1, num)
      have hsa : ¬ screen_starting_at pnts probe = 1 := by
        simp only [screen_starting_at, if_pos hlt, if_pos hp]
        omega
      refine ⟨List.replicate (1200 - pnts) 0 ++ payload, some (1, 1200 - pnts),
        ?_, ?_, ?_, ?_, ?_, ?_⟩
      · simp only [get_waveform_bytes_screen_model, if_pos hlen, if_pos hlt,
          if_neg hsa, hS]
      · simp only [List.length_append, List.length_replicate, hlen]
        simp only [SAMPLES_ON_DISPLAY] at hlt
        omega
      · intro he
        omega
      · intro _ _
        exact ⟨rfl, rfl⟩
      · intro _ hpe
        exact absurd hpe hp
      · intro yinc yorig yref i hm _
        have hi : i < 1200 - pnts := by
          simpa [maskedPosB] using hm
        exact samples_get_masked_leading 1 (1200 - pnts) i (by decide) hi
          yinc yorig yref _
    · -- right deficit: trailing zeros, mask (0, num)
      push_neg at hp
      have hsa : screen_starting_at pnts probe = 1 := by
        simp [screen_starting_at, if_pos hlt, hp]
      refine ⟨payload ++ List.replicate (1200 - pnts) 0, some (0, 1200 - pnts),
        ?_, ?_, ?_, ?_, ?_, ?_⟩
      · simp only [get_waveform_bytes_screen_model, if_pos hlen, if_pos hlt,
          if_pos hsa, hS]
      · simp only [List.length_append, List.length_replicate, hlen]
        simp only [SAMPLES_ON_DISPLAY] at hlt
        omega
      · intro he
        omega
      · intro _ hne
        exact absurd hp hne
      · intro _ _
        exact ⟨rfl, rfl⟩
      · intro yinc yorig yref i hm hi
        have hbl : (payload ++ List.replicate (1200 - pnts) 0).length = 1200 := by
          simp only [List.length_append, List.length_replicate, hlen]
          simp only [SAMPLES_ON_DISPLAY] at hlt
          omega
        have hnum : 1200 - pnts ≠ 0 := by omega
        have hmlo : 1200 - (1200 - pnts) ≤ i := by
          simpa [maskedPosB] using hm
        exact samples_get_masked_trailing (1200 - pnts) i hnum
          (by omega) (by omega) (by omega) yinc yorig yref
  · have hpe : pnts = 1200 := by
      simp only [SAMPLES_ON_DISPLAY] at hlt
      omega
    refine ⟨payload, none, ?_, ?_, ?_, ?_, ?_, ?_⟩
    · simp only [get_waveform_bytes_screen_model, if_pos hlen, if_neg hlt]
    · omega
    · intro _
      exact ⟨rfl, rfl⟩
    · intro hc _
      omega
    · intro hc _
      omega
    · intro yinc yorig yref i hm _
      simp [maskedPosB] at hm

/-- Witness for C4 at the spec's concrete scenario: `pnts = 1000`, probe
read-back `201` (left deficit), payload of 1000 bytes: the result is
1200 bytes, the mask is `(1, 200)`, and the buffer carries 200 leading
zero bytes. -/
theorem screen_fetch_pads_and_masks_witness :
    ∃ buff mask,
      get_waveform_bytes_screen_model 1000 201 (List.replicate 1000 100) =
        some (buff, mask) ∧
      buff.length = 1200 ∧
      ((1000 : Nat) = 1200 → buff = List.replicate 1000 100 ∧ mask = none) ∧
      ((1000 : Nat) < 1200 → (201 : Nat) ≠ 1 →
        buff = List.replicate 200 0 ++ List.replicate 1000 100 ∧
        mask = some (1, 200)) ∧
      ((1000 : Nat) < 1200 → (201 : Nat) = 1 →
        buff = List.replicate 1000 100 ++ List.replicate 200 0 ∧
        mask = some (0, 200)) ∧
      (∀ yinc yorig yref i, maskedPosB mask 1200 i = true → i < 1200 →
        ((get_waveform_samples_model mask yinc yorig yref buff).1)[i]? =
          some none) := by
  have h := screen_fetch_pads_and_masks 1000 201 (List.replicate 1000 100)
    (by norm_num) (List.length_replicate 1000 100)
  have h200 : (1200 : Nat) - 1000 = 200 := by norm_num
  rw [h200] at h
  exact h

/-- C1 (code bug): `get_waveform_samples` applies the pending mask but
never reassigns `self.mask_begin_num`, so the mask is *not* cleared on
consumption.  Concretely: a partial-screen fetch (`pnts = 1000`, probe
read-back `201`) records the mask `(1, 200)`; a later reconstruction of
an unrelated 600-byte internal-memory transfer (which never records a
mask of its own) still sees the mask state `(1, 200)` — the second
component of the model, the post-call state, is unchanged — and injects
NaN into position 0 of the raw data. -/
theorem stale_mask_not_cleared :
    (∃ b, get_waveform_bytes_screen_model 1000 201 (List.replicate 1000 100) =
        some (b, some (1, 200))) ∧
    (get_waveform_samples_model (some (1, 200)) 1 0 0
        (List.replicate 600 100)).2 = some (1, 200) ∧
    ((get_waveform_samples_model (some (1, 200)) 1 0 0
        (List.replicate 600 100)).1)[0]? = some none := by
  refine ⟨⟨List.replicate 200 0 ++ List.replicate 1000 100, ?_⟩, rfl, ?_⟩
  · simp only [get_waveform_bytes_screen_model, SAMPLES_ON_DISPLAY,
      screen_starting_at, List.length_replicate]
    norm_num
  · exact samples_get_masked_leading 1 200 0 (by decide) (by norm_num) 1 0 0 _

/-- C5: in an internal-memory fetch in which every sub-range request
returns exactly the requested bytes, the loop terminates with a buffer
of exactly `pnts` bytes, the k-th (0-based) request uses start
`1 + k * 250000` and stop `min pnts (start + 250000 - 1)`, and for
`pnts = 600000` exactly the three windows
`(1, 250000), (250001, 500000), (500001, 600000)` are issued. -/
theorem internal_fetch_chunking :
    (∀ pnts fuel : Nat, pnts < 1 + fuel * max_byte_len →
      ∃ b, get_waveform_bytes_internal_model exactOracle pnts fuel =
          (some b, expectedReqs pnts fuel 1) ∧ b.length = pnts) ∧
    (∀ (pnts fuel k : Nat) (p : Nat × Nat),
      (expectedReqs pnts fuel 1)[k]? = some p →
      p = (1 + k * max_byte_len,
           min pnts (1 + k * max_byte_len + max_byte_len - 1))) ∧
    expectedReqs 600000 3 1 =
      [(1, 250000), (250001, 500000), (500001, 600000)] := by
  refine ⟨?_, ?_, ?_⟩
  · intro pnts fuel hfuel
    have h := fetchGo_exact pnts fuel 1 [] (le_refl 1) (by simp) hfuel
    obtain ⟨b, hb, hbl⟩ := h.2
    refine ⟨b, ?_, hbl⟩
    rw [get_waveform_bytes_internal_model, Prod.ext_iff]
    exact ⟨hb, h.1⟩
  · intro pnts fuel k p hp
    exact expectedReqs_get pnts fuel 1 k p hp
  · decide

/-- Witness for C5 at the spec's concrete instance `pnts = 600000`,
unrolling 3 iterations: the buffer is complete (600000 bytes) and the
request windows are the three claimed ones. -/
theorem internal_fetch_chunking_witness :
    ∃ b, get_waveform_bytes_internal_model exactOracle 600000 3 =
        (some b, [(1, 250000), (250001, 500000), (500001, 600000)]) ∧
      b.length = 600000 := by
  have h := internal_fetch_chunking.1 600000 3 (by norm_num [max_byte_len])
  rwa [internal_fetch_chunking.2.2] at h

/-- C3 counterexample: with a stalled instrument (every chunk decodes to
zero bytes) and `pnts = 1`, the first request `(1, 1)` yields zero
bytes, after which the code — instead of failing with an
`IncompleteTransfer` error and issuing no further requests — issues the
further requests `(250001, 1)` and `(500001, 1)` in the next two
unrolled iterations, with the loop still running (`none`): the chunk
loop does not terminate and no error of any kind is raised. -/
theorem incomplete_transfer_counterexample :
    (get_waveform_bytes_internal_model emptyOracle 1 3).2 =
      [(1, 1), (250001, 1), (500001, 1)] ∧
    (get_waveform_bytes_internal_model emptyOracle 1 3).1 = none := by
  constructor <;> rfl

/-- C3 (amended): the source's chunk loop has no zero-byte check and no
`IncompleteTransfer` error: it keeps issuing sub-range requests until
the accumulated payload reaches `pnts`, so against an instrument whose
replies decode to zero bytes it never exits — unrolling any number
`fuel` of iterations leaves the loop still running (`none`) after
issuing exactly `fuel` requests. -/
theorem internal_fetch_zero_bytes_loops (pnts fuel : Nat) (hp : 0 < pnts) :
    (get_waveform_bytes_internal_model emptyOracle pnts fuel).1 = none ∧
    ((get_waveform_bytes_internal_model emptyOracle pnts fuel).2).length =
      fuel :=
  fetchGo_empty pnts hp fuel 1

/-- Witness for the amended C3 at `pnts = 1`, `fuel = 3`. -/
theorem internal_fetch_zero_bytes_loops_witness :
    (get_waveform_bytes_internal_model emptyOracle 1 3).1 = none ∧
    ((get_waveform_bytes_internal_model emptyOracle 1 3).2).length = 3 :=
  internal_fetch_zero_bytes_loops 1 3 (by norm_num)

/-- C7: `get_waveform_bytes` with mode `'NORMal'` always takes the
screen path; with `'RAW'` always the internal-memory path, issuing
`:STOP` exactly when the scope reports running; with `'MAXimum'` the
screen path when running and the internal path (no stop needed) when
stopped. -/
theorem get_waveform_bytes_mode_dispatch (running : Bool) :
    get_waveform_bytes_model ['N', 'O', 'R', 'M', 'a', 'l'] running =
      some (FetchPath.screen, false) ∧
    get_waveform_bytes_model ['R', 'A', 'W'] running =
      some (FetchPath.internal, running) ∧
    get_waveform_bytes_model ['M', 'A', 'X', 'i', 'm', 'u', 'm'] running =
      (if running then some (FetchPath.screen, false)
       else some (FetchPath.internal, false)) := by
  cases running <;> exact ⟨rfl, rfl, rfl⟩

/-- C8: when `:ACQuire:MDEPth?` answers `AUTO`, the resolution sequence
returns the preamble point count, leaves the instrument's run state and
read-mode equal to their pre-call values, always fetches a fresh
preamble, stops and restarts exactly when the snapshot captured
"running", switches to RAW mode exactly when the snapshotted mode is the
screen (`NORM`) mode, and when a restart happens it is the last action,
after the mode restoration. -/
theorem memory_depth_auto_spec (s : ScopeState) (pnts : Nat) :
    (memory_depth_auto s pnts).2 = pnts ∧
    execActs s (memory_depth_auto s pnts).1 = s ∧
    ScopeAct.readPreamble ∈ (memory_depth_auto s pnts).1 ∧
    (ScopeAct.stopAcq ∈ (memory_depth_auto s pnts).1 ↔ s.running = true) ∧
    (ScopeAct.runAcq ∈ (memory_depth_auto s pnts).1 ↔ s.running = true) ∧
    (ScopeAct.setMode ['R', 'A', 'W'] ∈ (memory_depth_auto s pnts).1 ↔
      pyStartswith s.mode normModeReply = true) ∧
    (s.running = true →
      ∃ l, (memory_depth_auto s pnts).1 = l ++ [ScopeAct.runAcq] ∧
        (pyStartswith s.mode normModeReply = true →
          ScopeAct.setMode s.mode ∈ l)) := by
  obtain ⟨r, m⟩ := s
  by_cases hn : pyStartswith m normModeReply = true
  · have hRAW : ¬ m = ['R', 'A', 'W'] := by
      intro he
      rw [he] at hn
      simp [pyStartswith, normModeReply] at hn
    cases r
    · refine ⟨rfl, ?_, ?_, ?_, ?_, ?_, ?_⟩
      · simp [memory_depth_auto, execActs, applyAct, hn]
      · simp [memory_depth_auto, hn]
      · simp [memory_depth_auto, hn]
      · simp [memory_depth_auto, hn]
      · simp [memory_depth_auto, hn]
      · intro h
        simp at h
    · refine ⟨rfl, ?_, ?_, ?_, ?_, ?_, ?_⟩
      · simp [memory_depth_auto, execActs, applyAct, hn]
      · simp [memory_depth_auto, hn]
      · simp [memory_depth_auto, hn]
      · simp [memory_depth_auto, hn]
      · simp [memory_depth_auto, hn, hRAW]
      · intro _
        refine ⟨[ScopeAct.stopAcq, ScopeAct.setMode ['R', 'A', 'W'],
          ScopeAct.readPreamble, ScopeAct.setMode m], ?_, ?_⟩
        · simp [memory_depth_auto, hn]
        · intro _
          simp
  · cases r
    · refine ⟨rfl, ?_, ?_, ?_, ?_, ?_, ?_⟩
      · simp [memory_depth_auto, execActs, applyAct, hn]
      · simp [memory_depth_auto, hn]
      · simp [memory_depth_auto, hn]
      · simp [memory_depth_auto, hn]
      · simp [memory_depth_auto, hn]
      · intro h
        simp at h
    · refine ⟨rfl, ?_, ?_, ?_, ?_, ?_, ?_⟩
      · simp [memory_depth_auto, execActs, applyAct, hn]
      · simp [memory_depth_auto, hn]
      · simp [memory_depth_auto, hn]
      · simp [memory_depth_auto, hn]
      · simp [memory_depth_auto, hn]
      · intro _
        refine ⟨[ScopeAct.stopAcq, ScopeAct.readPreamble], ?_, ?_⟩
        · simp [memory_depth_auto, hn]
        · intro hc
          exact absurd hc hn

/-- Witness for C8 at a concrete state: running scope in `NORM` mode,
`pnts = 6000000`. -/
theorem memory_depth_auto_spec_witness :
    (memory_depth_auto ⟨true, ['N', 'O', 'R', 'M']⟩ 6000000).2 = 6000000 ∧
    execActs ⟨true, ['N', 'O', 'R', 'M']⟩
        (memory_depth_auto ⟨true, ['N', 'O', 'R', 'M']⟩ 6000000).1 =
      ⟨true, ['N', 'O', 'R', 'M']⟩ := by
  have h := memory_depth_auto_spec ⟨true, ['N', 'O', 'R', 'M']⟩ 6000000
  exact ⟨h.1, h.2.1⟩

/-- C9 (amended): probe-ratio and timebase-scale writes always send the
candidate of the quantized list minimising the absolute difference to
the request, first occurrence (the lower candidate) winning ties;
`set_channel_scale` sends that snapped candidate (over the
probe-ratio-scaled list) only when `use_closest_match` is true — with
the default `use_closest_match=False` the requested value is written
unchanged. -/
theorem physical_setting_snap :
    (∀ v : ℚ, ∃ r, set_probe_ratio_model v = some r ∧
        isFirstArgmin v possible_probe_ratio_values r) ∧
    (∀ v : ℚ, ∃ r, timebase_scale_setter v = some r ∧
        isFirstArgmin v possible_timebase_scale_values r) ∧
    (∀ pr v : ℚ, ∃ r, set_channel_scale_model true pr v = some r ∧
        isFirstArgmin v
          (possible_channel_scale_values.map (fun val => val * pr)) r) ∧
    (∀ pr v : ℚ, set_channel_scale_model false pr v = some v) := by
  refine ⟨?_, ?_, ?_, fun pr v => rfl⟩
  · intro v
    rw [set_probe_ratio_model, possible_probe_ratio_values_eq]
    exact pyMinKeyAbs_isFirstArgmin v _ _
  · intro v
    rw [timebase_scale_setter, possible_timebase_scale_values_eq]
    exact pyMinKeyAbs_isFirstArgmin v _ _
  · intro pr v
    rw [set_channel_scale_model, if_pos rfl, possible_channel_scale_values_eq]
    simp only [List.map_cons, List.map_nil]
    exact pyMinKeyAbs_isFirstArgmin v _ _

/-- Witness for the amended C9 at the concrete request 0.03: the probe
ratio snaps to a first-argmin candidate. -/
theorem physical_setting_snap_witness :
    ∃ r, set_probe_ratio_model (3/100) = some r ∧
      isFirstArgmin (3/100) possible_probe_ratio_values r :=
  physical_setting_snap.1 (3/100)

/-- C9 counterexample: `set_channel_scale` with the default
`use_closest_match=False` (probe ratio 1) writes the requested
0.03 V/div unchanged, although the snap resolver over the quantized
candidates would send 0.02 — so "every write of a channel scale sends
the quantized argmin" is false on the code. -/
theorem set_channel_scale_counterexample :
    set_channel_scale_model false 1 (3/100) = some (3/100) ∧
    pyMinKeyAbs (3/100)
      (possible_channel_scale_values.map (fun val => val * 1)) =
      some (1/50) ∧
    ((3 : ℚ)/100) ≠ 1/50 := by
  refine ⟨rfl, ?_, by norm_num⟩
  rw [possible_channel_scale_values_eq]
  norm_num [pyMinKeyAbs, pyMinKeyAbsGo, abs]

end DS1054Z
